import Mathlib

/-!
# Verification of the Shopify GraphQL node's pagination and error handling

Shallow embedding of `src/unnamed/part_000` (`ShopifyGraphQl.execute`), the
n8n node that runs GraphQL queries against the Shopify Admin API.  The parts
embedded here are the ones the specification's testable properties are about:

* the `returnAll` pagination loops of `getProducts` (lines 260-337) and
  `getOrders` (lines 377-454), which differ only in the static query text and
  in the shape of the returned nodes — both are modelled by `runFrom`/`runAll`
  over an abstract item type;
* the `if (response.errors)` check (lines 318-324, 435-441, 507-513);
* the `JSON.parse` validation of the custom-query operation (lines 195-205);
* the per-item `try`/`catch` with `continueOnFail` (lines 188-531).

The network transport (`this.helpers.httpRequest`) is external to the
repository; the environment is modelled as the list of responses the server
returns to the successive requests, and every model function also reports the
trace of requests it issued (each request recorded as the cursor value it
carried, `none` = no `cursor` variable in the request body).
-/

namespace ShopifyGraphQl

/-- `pageInfo` object of a Shopify connection: `{ hasNextPage, endCursor }`.
`endCursor` is `none` when the JSON field is `null` or absent. -/
structure PageInfo where
  hasNextPage : Bool
  endCursor : Option String
deriving DecidableEq, Repr

/-- One element of `edges`: `{ cursor, node }`.  The per-edge `cursor` is
requested by the query but never read by the node's code. -/
structure Edge (α : Type) where
  cursor : Option String
  node : α
deriving DecidableEq, Repr

/-- The connection payload under `response.data.products` (resp.
`response.data.orders`): `{ edges, pageInfo }`. -/
structure PageData (α : Type) where
  edges : List (Edge α)
  pageInfo : PageInfo
deriving DecidableEq, Repr

/-- A parsed GraphQL HTTP response as the pagination loop reads it.
`errors = none` models a response whose `errors` field is absent or `null`
(falsy in `if (response.errors)`); `errors = some es` models a present
`errors` array — truthy in JavaScript even when the array `es` is empty. -/
structure GraphQLResponse (α : Type) where
  errors : Option (List String)
  data : PageData α
deriving DecidableEq, Repr

/-- The cursor value a page request carries, from the loop's `cursor`
variable.  Source line 300: `cursor ? { query: queryString, cursor } :
{ query: queryString }` (and line 419 for orders) — the request carries the
cursor exactly when the JavaScript value is truthy, so a `null` cursor or an
empty-string cursor both yield a request without a `cursor` variable. -/
def jsCursorVar (c : Option String) : Option String :=
  match c with
  | none => none
  | some s => if s = "" then none else some s

/-- `edges.map((edge) => edge.node)` — source lines 326 and 443. -/
def nodesOf (d : PageData α) : List α :=
  d.edges.map (fun e => e.node)

/-- How a `returnAll` run ends:
* `ok items` — a page reported `hasNextPage = false` and the accumulated
  items were pushed to `returnData`;
* `err payload` — a response's `errors` field was truthy and
  `NodeOperationError` was thrown, the accumulated items discarded;
* `pending` — the supplied response list was exhausted while the loop still
  wanted another page (the run is cut short, not terminated). -/
inductive Outcome (α : Type) where
  | ok (items : List α)
  | err (payload : List String)
  | pending
deriving DecidableEq, Repr

/-- Result of a `returnAll` run: the trace of issued page requests (each
recorded as the cursor it carried) together with the outcome. -/
structure RunResult (α : Type) where
  requests : List (Option String)
  outcome : Outcome α
deriving DecidableEq, Repr

/-- The body of `while (hasNextPage)` (source lines 266-331, and 383-448 for
orders), consuming one response per iteration.  State `c` is the `cursor`
variable (initially `null`), `acc` is the `allProducts`/`allOrders`
accumulator.  Each iteration: build the variables from `c`, issue the
request, throw on a truthy `errors` field, append the page's nodes, then
take `hasNextPage` and `endCursor` from `pageInfo`. -/
def runFrom : List (GraphQLResponse α) → Option String → List α → RunResult α
  | [], _, _ => { requests := [], outcome := Outcome.pending }
  | r :: rs, c, acc =>
    let req := jsCursorVar c
    match r.errors with
    | some es => { requests := [req], outcome := Outcome.err es }
    | none =>
      let acc2 := acc ++ nodesOf r.data
      if r.data.pageInfo.hasNextPage then
        let rest := runFrom rs r.data.pageInfo.endCursor acc2
        { requests := req :: rest.requests, outcome := rest.outcome }
      else
        { requests := [req], outcome := Outcome.ok acc2 }

/-- A whole `returnAll` run: `hasNextPage = true`, `cursor = null`,
`allProducts = []` (source lines 262-264), then the loop. -/
def runAll (rs : List (GraphQLResponse α)) : RunResult α :=
  runFrom rs none []

/-- A response to a single (non-paginating) request, whose `data` payload is
pushed raw; `errors` modelled as in `GraphQLResponse`. -/
structure SingleResponse (δ : Type) where
  errors : Option (List String)
  data : δ
deriving DecidableEq, Repr

/-- The single-request error check (source lines 507-518): throw
`NodeOperationError` carrying the `errors` payload when the field is truthy,
otherwise push `response.data`. -/
def handleResponse (r : SingleResponse δ) : Except (List String) δ :=
  match r.errors with
  | some es => Except.error es
  | none => Except.ok r.data

/-! ## Honest backend model

For the completeness and request-count properties the environment is a
well-behaved server holding an ordered list `all` of items and serving them
in pages of size `p`: the page starting at position `pos` contains the items
at positions `pos, ..., pos+p-1`, reports `hasNextPage` exactly when items
remain beyond it, and issues an opaque cursor encoding the next position.
The node's query text pins `first: 250`; the loop itself never inspects the
page size, so the model leaves `p` a parameter and the theorems quantify
over `p ∈ [1, 250]` as the specification does. -/

/-- Opaque non-empty cursor string the honest server issues for position
`n`. -/
def posCursor (n : Nat) : String :=
  "cursor" ++ toString n

/-- The honest server's error-free response for the page starting at
position `pos` of the item list `all`, with page size `p`. -/
def honestPage (all : List α) (p pos : Nat) : GraphQLResponse α :=
  { errors := none
    data :=
      { edges := ((all.drop pos).take p).map (fun a => { cursor := some (posCursor pos), node := a })
        pageInfo :=
          { hasNextPage := decide (pos + p < all.length)
            endCursor := some (posCursor (pos + p)) } } }

/-- The number of pages a backend of `n` items serves with page size `p`:
`⌈n / p⌉`, except that an empty backend still serves one (empty) page. -/
def numPages (n p : Nat) : Nat :=
  max 1 ((n + p - 1) / p)

/-- The honest server's consecutive responses: `m` pages starting at
position `pos`, each advancing by `p`. -/
def honestPagesFrom (all : List α) (p pos : Nat) : Nat → List (GraphQLResponse α)
  | 0 => []
  | m + 1 => honestPage all p pos :: honestPagesFrom all p (pos + p) m

/-- The full response sequence an honest backend of item list `all` and page
size `p` produces for a `returnAll` run. -/
def honestList (all : List α) (p : Nat) : List (GraphQLResponse α) :=
  honestPagesFrom all p 0 (numPages all.length p)

theorem numPages_pos (n p : Nat) : 1 ≤ numPages n p :=
  le_max_left 1 _

theorem numPages_step (d p : Nat) (hp : 1 ≤ p) (hd : p < d) :
    numPages d p = numPages (d - p) p + 1 := by
  have h1 : d + p - 1 = ((d - p) + p - 1) + p := by omega
  have h2 : 1 ≤ ((d - p) + p - 1) / p := by
    rw [Nat.le_div_iff_mul_le hp]
    omega
  unfold numPages
  rw [h1, Nat.add_div_right _ hp]
  omega

theorem numPages_last (d p : Nat) (hp : 1 ≤ p) (hd : d ≤ p) :
    numPages d p = 1 := by
  have h2 : (d + p - 1) / p < 2 := by
    rw [Nat.div_lt_iff_lt_mul hp]
    omega
  unfold numPages
  omega

/-! ## Unfolding equations for `runFrom` -/

theorem runFrom_nil (c : Option String) (acc : List α) :
    runFrom ([] : List (GraphQLResponse α)) c acc
      = { requests := [], outcome := Outcome.pending } := rfl

theorem runFrom_cons_err (r : GraphQLResponse α) (rs : List (GraphQLResponse α))
    (c : Option String) (acc : List α) (es : List String) (he : r.errors = some es) :
    runFrom (r :: rs) c acc
      = { requests := [jsCursorVar c], outcome := Outcome.err es } := by
  obtain ⟨e, d⟩ := r
  cases he
  rfl

theorem runFrom_cons_ok (r : GraphQLResponse α) (rs : List (GraphQLResponse α))
    (c : Option String) (acc : List α) (he : r.errors = none) :
    runFrom (r :: rs) c acc
      = if r.data.pageInfo.hasNextPage then
          { requests := jsCursorVar c ::
              (runFrom rs r.data.pageInfo.endCursor (acc ++ nodesOf r.data)).requests
            outcome := (runFrom rs r.data.pageInfo.endCursor (acc ++ nodesOf r.data)).outcome }
        else
          { requests := [jsCursorVar c], outcome := Outcome.ok (acc ++ nodesOf r.data) } := by
  obtain ⟨e, d⟩ := r
  cases he
  rfl

theorem nodesOf_honestPage (all : List α) (p pos : Nat) :
    nodesOf (honestPage all p pos).data = (all.drop pos).take p := by
  unfold nodesOf honestPage
  rw [List.map_map]
  exact List.map_id _

/-- Running the loop over the honest server's pages starting at position
`pos` consumes exactly `numPages (all.length - pos) p` responses and ends
with the accumulator extended by every remaining item, in order. -/
theorem runFrom_honest (all : List α) (p : Nat) (hp : 1 ≤ p) :
    ∀ (m pos : Nat) (c : Option String) (acc : List α),
      m = numPages (all.length - pos) p →
      (runFrom (honestPagesFrom all p pos m) c acc).outcome
          = Outcome.ok (acc ++ all.drop pos) ∧
      (runFrom (honestPagesFrom all p pos m) c acc).requests.length = m := by
  intro m
  induction m with
  | zero =>
    intro pos c acc hm
    have := numPages_pos (all.length - pos) p
    omega
  | succ m ih =>
    intro pos c acc hm
    rw [honestPagesFrom, runFrom_cons_ok _ _ _ _ rfl]
    by_cases h : pos + p < all.length
    · have hnp : (honestPage all p pos).data.pageInfo.hasNextPage = true := by
        simp [honestPage, h]
      have hcur : (honestPage all p pos).data.pageInfo.endCursor
          = some (posCursor (pos + p)) := rfl
      have hm' : m = numPages (all.length - (pos + p)) p := by
        have hstep := numPages_step (all.length - pos) p hp (by omega)
        have heq : all.length - pos - p = all.length - (pos + p) := by omega
        rw [heq] at hstep
        omega
      have hrec := ih (pos + p) (some (posCursor (pos + p)))
        (acc ++ nodesOf (honestPage all p pos).data) hm'
      rw [hnp, hcur] at *
      simp only [if_true]
      refine ⟨?_, ?_⟩
      · rw [hrec.1, nodesOf_honestPage]
        have hdd : all.drop (pos + p) = (all.drop pos).drop p := by
          rw [List.drop_drop]
        rw [List.append_assoc, hdd, List.take_append_drop]
      · simp [hrec.2]
    · have hnp : (honestPage all p pos).data.pageInfo.hasNextPage = false := by
        simp [honestPage, h]
      rw [hnp]
      simp only [if_false, Bool.false_eq_true, reduceIte]
      have hm0 : m = 0 := by
        have hlast := numPages_last (all.length - pos) p hp (by omega)
        omega
      subst hm0
      refine ⟨?_, rfl⟩
      rw [nodesOf_honestPage]
      have htake : (all.drop pos).take p = all.drop pos := by
        apply List.take_of_length_le
        rw [List.length_drop]
        omega
      rw [htake]

/-! ## Claims C1, C2, C3: completeness, request count, empty backend -/

/-- C1 (completeness of full pagination): against an honest backend holding
item list `all` (so the true result-set size is `all.length`) serving pages
of any size `p ∈ [1, 250]`, the `returnAll` loop terminates with exactly the
list `all` — every item exactly once, in original server order, the
concatenation of the pages in fetch order. -/
theorem fetchAll_completeness (all : List α) (p : Nat) (hp : 1 ≤ p) (hple : p ≤ 250) :
    (runAll (honestList all p)).outcome = Outcome.ok all := by
  have h := runFrom_honest all p hp (numPages all.length p) 0 none []
    (by rw [Nat.sub_zero])
  simpa [runAll, honestList] using h.1

theorem fetchAll_completeness_witness :
    1 ≤ 2 ∧ 2 ≤ 250 ∧
      (runAll (honestList [10, 11, 12, 13, 14] 2)).outcome = Outcome.ok [10, 11, 12, 13, 14] :=
  ⟨by decide, by decide, fetchAll_completeness [10, 11, 12, 13, 14] 2 (by decide) (by decide)⟩

/-- C2, counterexample to the claim as stated: on an empty backend
(`N = 0`) the loop still issues one request (the `while` condition is
initialised to `true` before any response is seen), but
`⌈N / pageSize⌉ = 0`. -/
theorem fetchAll_requestCount_cex :
    (runAll (honestList ([] : List Nat) 250)).requests.length
      ≠ (List.length ([] : List Nat) + 250 - 1) / 250 := by decide

/-- C2 as amended: against an honest backend of `N = all.length` items with
page size `p ∈ [1, 250]`, the `returnAll` loop issues exactly
`max 1 ⌈N / p⌉` page requests — `⌈N / p⌉` when `N ≥ 1`, and exactly one
request when `N = 0`. -/
theorem fetchAll_requestCount (all : List α) (p : Nat) (hp : 1 ≤ p) (hple : p ≤ 250) :
    (runAll (honestList all p)).requests.length = max 1 ((all.length + p - 1) / p) := by
  have h := runFrom_honest all p hp (numPages all.length p) 0 none []
    (by rw [Nat.sub_zero])
  simpa [runAll, honestList, numPages] using h.2

theorem fetchAll_requestCount_witness :
    1 ≤ 2 ∧ 2 ≤ 250 ∧ (runAll (honestList [10, 11, 12, 13, 14] 2)).requests.length = 3 :=
  ⟨by decide, by decide, by
    rw [fetchAll_requestCount [10, 11, 12, 13, 14] 2 (by decide) (by decide)]
    decide⟩

/-- C3 (empty-result behaviour): a `returnAll` run against an honest empty
backend issues exactly one page request (carrying no cursor) and returns the
empty item sequence. -/
theorem fetchAll_empty (p : Nat) (hp : 1 ≤ p) (hple : p ≤ 250) :
    runAll (honestList ([] : List α) p)
      = { requests := [none], outcome := Outcome.ok [] } := by
  have h1 : numPages (List.length ([] : List α)) p = 1 := numPages_last 0 p hp (by omega)
  unfold runAll honestList
  rw [h1, honestPagesFrom, honestPagesFrom, runFrom_cons_ok _ _ _ _ rfl]
  have hnp : (honestPage ([] : List α) p 0).data.pageInfo.hasNextPage = false := by
    simp [honestPage]
  rw [hnp]
  simp [nodesOf_honestPage, jsCursorVar]

theorem fetchAll_empty_witness :
    1 ≤ 250 ∧ 250 ≤ 250 ∧
      runAll (honestList ([] : List Nat) 250)
        = { requests := [none], outcome := Outcome.ok [] } :=
  ⟨by decide, by decide, fetchAll_empty 250 (by decide) (by decide)⟩

/-! ## A run across an error-free, continuing initial segment of pages -/

/-- The value of the loop's `cursor` variable after consuming the given
pages: the last page's `endCursor`, or the starting value for no pages. -/
def chainCursor (c : Option String) : List (GraphQLResponse α) → Option String
  | [] => c
  | r :: rs => chainCursor r.data.pageInfo.endCursor rs

/-- All items carried by a list of pages, in order. -/
def pageNodes (rs : List (GraphQLResponse α)) : List α :=
  (rs.map (fun r => nodesOf r.data)).flatten

theorem pageNodes_nil : pageNodes ([] : List (GraphQLResponse α)) = [] := rfl

theorem pageNodes_cons (r : GraphQLResponse α) (rs : List (GraphQLResponse α)) :
    pageNodes (r :: rs) = nodesOf r.data ++ pageNodes rs := by
  unfold pageNodes
  simp

/-- Consuming an initial segment of error-free pages that all report
`hasNextPage = true` leaves the loop running on the remaining responses,
with the cursor chained through the segment and the accumulator extended by
the segment's items; one request was issued per consumed page. -/
theorem runFrom_append_good (pre : List (GraphQLResponse α))
    (h : ∀ r ∈ pre, r.errors = none ∧ r.data.pageInfo.hasNextPage = true) :
    ∀ (rs : List (GraphQLResponse α)) (c : Option String) (acc : List α),
      (runFrom (pre ++ rs) c acc).outcome
        = (runFrom rs (chainCursor c pre) (acc ++ pageNodes pre)).outcome ∧
      (runFrom (pre ++ rs) c acc).requests.length
        = pre.length + (runFrom rs (chainCursor c pre) (acc ++ pageNodes pre)).requests.length := by
  induction pre with
  | nil =>
    intro rs c acc
    simp [chainCursor, pageNodes_nil]
  | cons r pre ih =>
    intro rs c acc
    have hr := h r (by simp)
    rw [List.cons_append, runFrom_cons_ok _ _ _ _ hr.1, hr.2]
    simp only [if_true]
    have ih2 := ih (fun x hx => h x (by simp [hx])) rs r.data.pageInfo.endCursor
      (acc ++ nodesOf r.data)
    rw [pageNodes_cons, chainCursor]
    constructor
    · rw [ih2.1, List.append_assoc]
    · simp only [List.length_cons, List.length]
      rw [ih2.2, List.append_assoc]
      omega

/-! ## Claims C5 and C8: fail-fast and the loop termination condition -/

/-- C5 (fail-fast pagination): if the first `k - 1` responses are error-free
and all report `hasNextPage = true`, and the `k`-th response carries a truthy
`errors` field, the `returnAll` run throws `NodeOperationError` with that
payload, has issued exactly `k` requests (none after the `k`-th, whatever
further responses the server would give), and hands the caller no partial
accumulation — the outcome carries the error payload only, and the items of
pages `1..k-1` are discarded. -/
theorem fetchAll_failFast (pre : List (GraphQLResponse α))
    (hpre : ∀ r ∈ pre, r.errors = none ∧ r.data.pageInfo.hasNextPage = true)
    (rk : GraphQLResponse α) (es : List String) (hk : rk.errors = some es)
    (rest : List (GraphQLResponse α)) :
    (runAll (pre ++ rk :: rest)).outcome = Outcome.err es ∧
    (runAll (pre ++ rk :: rest)).requests.length = pre.length + 1 := by
  have h := runFrom_append_good pre hpre (rk :: rest) none []
  rw [runFrom_cons_err rk rest _ _ es hk] at h
  unfold runAll
  exact ⟨h.1, h.2⟩

/-- A sample error-free page payload holding one item, used by concrete
witnesses. -/
def gd : PageData Nat :=
  { edges := [{ cursor := some "cursor0", node := 7 }]
    pageInfo := { hasNextPage := true, endCursor := some "cursorA" } }

/-- A sample error-free response that reports a further page. -/
def gp : GraphQLResponse Nat :=
  { errors := none, data := gd }

/-- A sample error-free response that reports no further page. -/
def lastp : GraphQLResponse Nat :=
  { errors := none
    data := { edges := [{ cursor := some "cursor1", node := 8 }]
              pageInfo := { hasNextPage := false, endCursor := none } } }

theorem fetchAll_failFast_witness :
    (∀ r ∈ [gp], r.errors = none ∧ r.data.pageInfo.hasNextPage = true) ∧
      ({ errors := some ["boom"], data := gd } : GraphQLResponse Nat).errors = some ["boom"] ∧
      (runAll ([gp] ++ { errors := some ["boom"], data := gd } :: [gp])).outcome
          = Outcome.err ["boom"] ∧
      (runAll ([gp] ++ { errors := some ["boom"], data := gd } :: [gp])).requests.length
          = 1 + 1 :=
  ⟨by decide, by decide,
    (fetchAll_failFast [gp] (by decide) _ ["boom"] (by decide) [gp]).1,
    (fetchAll_failFast [gp] (by decide) _ ["boom"] (by decide) [gp]).2⟩

/-- C8 (loop termination condition): if the first `k - 1` responses are
error-free with `hasNextPage = true` and the `k`-th is error-free with
`hasNextPage = false`, the `returnAll` run stops after the `k`-th page —
exactly `k` requests, whatever further responses the server would give — and
returns the concatenation of the `k` pages' items. -/
theorem fetchAll_termination (pre : List (GraphQLResponse α))
    (hpre : ∀ r ∈ pre, r.errors = none ∧ r.data.pageInfo.hasNextPage = true)
    (rk : GraphQLResponse α) (hkE : rk.errors = none)
    (hkN : rk.data.pageInfo.hasNextPage = false)
    (rest : List (GraphQLResponse α)) :
    (runAll (pre ++ rk :: rest)).requests.length = pre.length + 1 ∧
    (runAll (pre ++ rk :: rest)).outcome
      = Outcome.ok (pageNodes pre ++ nodesOf rk.data) := by
  have h := runFrom_append_good pre hpre (rk :: rest) none []
  rw [runFrom_cons_ok rk rest _ _ hkE, hkN] at h
  simp only [Bool.false_eq_true, if_false, reduceIte] at h
  unfold runAll
  refine ⟨h.2, ?_⟩
  rw [h.1]
  simp

theorem fetchAll_termination_witness :
    (∀ r ∈ [gp], r.errors = none ∧ r.data.pageInfo.hasNextPage = true) ∧
      lastp.errors = none ∧ lastp.data.pageInfo.hasNextPage = false ∧
      (runAll ([gp] ++ lastp :: [gp])).requests.length = 1 + 1 ∧
      (runAll ([gp] ++ lastp :: [gp])).outcome
        = Outcome.ok (pageNodes [gp] ++ nodesOf lastp.data) :=
  ⟨by decide, by decide, by decide,
    (fetchAll_termination [gp] (by decide) lastp (by decide) (by decide) [gp]).1,
    (fetchAll_termination [gp] (by decide) lastp (by decide) (by decide) [gp]).2⟩

/-! ## Claims C4 and C10: the `if (response.errors)` check -/

/-- C4 (error precedence): a response that contains both a `data` payload
and a present, non-empty `errors` array is treated as a failure on both code
paths — the single-request path throws with the error payload instead of
pushing `response.data`, and the pagination loop throws on its first page —
so the caller never receives the partial `data`. -/
theorem errors_precedence (r : SingleResponse δ) (es : List String)
    (h : r.errors = some es) (hne : es ≠ [])
    (pr : GraphQLResponse α) (hpr : pr.errors = some es)
    (rs : List (GraphQLResponse α)) :
    handleResponse r = Except.error es ∧ (runAll (pr :: rs)).outcome = Outcome.err es := by
  constructor
  · unfold handleResponse
    rw [h]
  · unfold runAll
    rw [runFrom_cons_err _ _ _ _ es hpr]

theorem errors_precedence_witness :
    ({ errors := some ["boom"], data := "partial" } : SingleResponse String).errors
        = some ["boom"] ∧
      (["boom"] : List String) ≠ [] ∧
      handleResponse ({ errors := some ["boom"], data := "partial" } : SingleResponse String)
        = Except.error ["boom"] ∧
      (runAll ({ errors := some ["boom"], data := gd } :: [gp])).outcome
        = Outcome.err ["boom"] :=
  ⟨by decide, by decide,
    (errors_precedence { errors := some ["boom"], data := "partial" } ["boom"] rfl
      (by decide) { errors := some ["boom"], data := gd } rfl [gp]).1,
    (errors_precedence ({ errors := some ["boom"], data := "partial" } : SingleResponse String)
      ["boom"] rfl (by decide) { errors := some ["boom"], data := gd } rfl [gp]).2⟩

/-- C10 (implicit — an empty `errors` array is a failure): the code tests
only the truthiness of `response.errors`, and in JavaScript a present array
is truthy even when empty, so a response whose `errors` field is present —
including `errors: []` — takes the error branch on both code paths and its
`data` is never returned. -/
theorem emptyErrors_failure (r : SingleResponse δ) (es : List String)
    (h : r.errors = some es)
    (pr : GraphQLResponse α) (hpr : pr.errors = some es)
    (rs : List (GraphQLResponse α)) :
    handleResponse r = Except.error es ∧ (runAll (pr :: rs)).outcome = Outcome.err es := by
  constructor
  · unfold handleResponse
    rw [h]
  · unfold runAll
    rw [runFrom_cons_err _ _ _ _ es hpr]

theorem emptyErrors_failure_witness :
    ({ errors := some [], data := "full-data" } : SingleResponse String).errors = some [] ∧
      handleResponse ({ errors := some [], data := "full-data" } : SingleResponse String)
        = Except.error [] ∧
      (runAll ({ errors := some [], data := gd } :: [gp])).outcome = Outcome.err [] :=
  ⟨by decide,
    (emptyErrors_failure { errors := some [], data := "full-data" } [] rfl
      { errors := some [], data := gd } rfl [gp]).1,
    (emptyErrors_failure ({ errors := some [], data := "full-data" } : SingleResponse String)
      [] rfl { errors := some [], data := gd } rfl [gp]).2⟩

/-! ## Claim C6: cursor chaining -/

/-- The request trace of a run is an initial segment of the ideal trace: no
cursor on the first request, then the JavaScript-truthiness image of each
response's `endCursor` on the request that follows it. -/
theorem runFrom_requests_take :
    ∀ (rs : List (GraphQLResponse α)) (c : Option String) (acc : List α),
      (runFrom rs c acc).requests
        = (jsCursorVar c :: rs.map (fun r => jsCursorVar r.data.pageInfo.endCursor)).take
            (runFrom rs c acc).requests.length := by
  intro rs
  induction rs with
  | nil => intro c acc; rfl
  | cons r rs ih =>
    intro c acc
    cases he : r.errors with
    | some es =>
      rw [runFrom_cons_err _ _ _ _ _ he]
      rfl
    | none =>
      rw [runFrom_cons_ok _ _ _ _ he]
      by_cases hn : r.data.pageInfo.hasNextPage
      · simp only [hn, if_true]
        rw [List.map_cons, List.length_cons, List.take_succ_cons]
        exact congrArg _ (ih r.data.pageInfo.endCursor (acc ++ nodesOf r.data))
      · simp only [hn, Bool.false_eq_true, if_false, reduceIte]
        rfl

/-- C6, counterexample to the claim as stated: a page that reports
`hasNextPage = true` with `endCursor = ""` is followed by a request carrying
no cursor at all, not the empty-string cursor the prior response returned —
`cursor ? {...} : {...}` tests JavaScript truthiness and the empty string is
falsy. -/
theorem cursor_chaining_cex :
    (([{ errors := none
         data := { edges := [{ cursor := some "cursor0", node := (7 : Nat) }]
                   pageInfo := { hasNextPage := true, endCursor := some "" } } },
       lastp] : List (GraphQLResponse Nat)).map
        (fun r => r.data.pageInfo.endCursor)).head? = some (some "") ∧
    (runAll [{ errors := none
               data := { edges := [{ cursor := some "cursor0", node := (7 : Nat) }]
                         pageInfo := { hasNextPage := true, endCursor := some "" } } },
             lastp]).requests.length = 2 ∧
    (runAll [{ errors := none
               data := { edges := [{ cursor := some "cursor0", node := (7 : Nat) }]
                         pageInfo := { hasNextPage := true, endCursor := some "" } } },
             lastp]).requests.get? 1 ≠ some (some "") := by
  refine ⟨rfl, rfl, ?_⟩
  decide

/-- C6 as amended: in every `returnAll` run in which no response reports an
empty-string `endCursor`, the first page request carries no cursor and every
later request carries exactly the `endCursor` of the immediately prior
response (an omitted cursor standing for a `null` one), so no request reuses
a stale cursor.  (A `hasNextPage = true` page with `endCursor = ""` would
instead be followed by a cursorless request — the counterexample above.) -/
theorem cursor_chaining (rs : List (GraphQLResponse α))
    (h : ∀ r ∈ rs, r.data.pageInfo.endCursor ≠ some "") :
    (runAll rs).requests
      = (none :: rs.map (fun r => r.data.pageInfo.endCursor)).take
          (runAll rs).requests.length := by
  have hmap : rs.map (fun r => jsCursorVar r.data.pageInfo.endCursor)
      = rs.map (fun r => r.data.pageInfo.endCursor) := by
    apply List.map_congr_left
    intro r hr
    cases hc : r.data.pageInfo.endCursor with
    | none => rfl
    | some s =>
      have hs : ¬ s = "" := by
        intro hs
        exact h r hr (by rw [hc, hs])
      simp [jsCursorVar, hs]
  have hlem := runFrom_requests_take rs none ([] : List α)
  rw [hmap] at hlem
  exact hlem

theorem cursor_chaining_witness :
    (∀ r ∈ [gp, lastp], r.data.pageInfo.endCursor ≠ some "") ∧
      (runAll [gp, lastp]).requests
        = (none :: [gp, lastp].map (fun r => r.data.pageInfo.endCursor)).take
            (runAll [gp, lastp]).requests.length :=
  ⟨by decide, cursor_chaining [gp, lastp] (by decide)⟩

/-! ## Claim C7: validation before network -/

/-- `NodeOperationError` as the node throws it: the validation message of
source lines 200-204, or the upstream GraphQL error payload. -/
inductive NodeError where
  | validation (msg : String)
  | upstream (payload : List String)
deriving DecidableEq, Repr

/-- The JSON body of one HTTP POST: the `query` text and the `variables`
mapping (field named `vars` here because `variables` is a Lean keyword). -/
structure HttpBody (σ : Type) where
  query : String
  vars : σ
deriving DecidableEq, Repr

/-- The operation `query` path of `execute` for one input item (source
lines 193-205 and 491-518).  `JSON.parse` and `this.helpers.httpRequest`
are host builtins external to the repository, passed in as `parse` — which
returns `none` exactly when `JSON.parse` would throw — and `net`, the
server's parsed response to a request body.  The item's variables string is
parsed first; when it is malformed the validation error is thrown before
any network call.  Otherwise the single request is issued and its `errors`
field checked.  The returned list is the trace of HTTP requests issued for
this item. -/
def runQueryOp (parse : String → Option σ) (net : HttpBody σ → SingleResponse δ)
    (queryText varsText : String) : List (HttpBody σ) × Except NodeError δ :=
  match parse varsText with
  | none => ([], Except.error (NodeError.validation "Variables must be valid JSON"))
  | some v =>
    let body : HttpBody σ := { query := queryText, vars := v }
    match (net body).errors with
    | some es => ([body], Except.error (NodeError.upstream es))
    | none => ([body], Except.ok (net body).data)

/-- C7 (validation before network): for every input whose variables string
is malformed JSON (`parse` fails on it), the custom-query operation raises
the validation error and its request trace is empty — zero HTTP requests
are issued for that item, whatever the transport would have answered. -/
theorem validation_before_network (parse : String → Option σ)
    (net : HttpBody σ → SingleResponse δ) (queryText varsText : String)
    (h : parse varsText = none) :
    runQueryOp parse net queryText varsText
      = ([], Except.error (NodeError.validation "Variables must be valid JSON")) := by
  unfold runQueryOp
  rw [h]

theorem validation_before_network_witness :
    ((fun s => if s = "valid" then some 0 else none) : String → Option Nat) "not-json" = none ∧
      runQueryOp (fun s => if s = "valid" then some 0 else none)
          (fun _ => ({ errors := none, data := 5 } : SingleResponse Nat))
          "query-text" "not-json"
        = ([], Except.error (NodeError.validation "Variables must be valid JSON")) :=
  ⟨by decide,
    validation_before_network (fun s => if s = "valid" then some 0 else none)
      (fun _ => ({ errors := none, data := 5 } : SingleResponse Nat))
      "query-text" "not-json" (by decide)⟩

/-! ## Claim C9: per-item failure policy -/

/-- One record pushed to `returnData`: an item's result payload, or — only
on the `continueOnFail` path — an object holding the error's message. -/
inductive OutRec (α : Type) where
  | data (d : α)
  | errMsg (m : String)
deriving DecidableEq, Repr

/-- The per-item loop of `execute` (source lines 188-531), abstracted over
the per-item work: each input item is given as the trace of requests its
processing issues together with its result, `Except.error` when the body
throws.  `toMsg` renders a thrown error's `.message` property.  Faithful to
the `try`/`catch`: on success push the record and continue; on failure with
`continueOnFail()` true push a record holding the message and continue with
the next item; otherwise rethrow — the whole run ends with the error, no
record list reaches the caller, and the requests already issued stand. -/
def runItems (toMsg : ε → String) :
    List (List ρ × Except ε α) → Bool → List ρ × Except ε (List (OutRec α))
  | [], _ => ([], Except.ok [])
  | (reqs, res) :: rest, cof =>
    match res with
    | Except.ok d =>
      let r2 := runItems toMsg rest cof
      (reqs ++ r2.1, r2.2.map (fun l => OutRec.data d :: l))
    | Except.error e =>
      if cof then
        let r2 := runItems toMsg rest cof
        (reqs ++ r2.1, r2.2.map (fun l => OutRec.errMsg (toMsg e) :: l))
      else (reqs, Except.error e)

theorem runItems_cons_ok (toMsg : ε → String) (reqs : List ρ) (d : α)
    (rest : List (List ρ × Except ε α)) (cof : Bool) :
    runItems toMsg ((reqs, Except.ok d) :: rest) cof
      = (reqs ++ (runItems toMsg rest cof).1,
         (runItems toMsg rest cof).2.map (fun l => OutRec.data d :: l)) := rfl

theorem runItems_cons_err_stop (toMsg : ε → String) (reqs : List ρ) (e : ε)
    (rest : List (List ρ × Except ε α)) :
    runItems toMsg ((reqs, Except.error e) :: rest) false = (reqs, Except.error e) := rfl

theorem runItems_cons_err_cont (toMsg : ε → String) (reqs : List ρ) (e : ε)
    (rest : List (List ρ × Except ε α)) :
    runItems toMsg ((reqs, Except.error e) :: rest) true
      = (reqs ++ (runItems toMsg rest true).1,
         (runItems toMsg rest true).2.map (fun l => OutRec.errMsg (toMsg e) :: l)) := rfl

/-- C9 (item-level failure policy): with items `pre` succeeding, item `i`
failing with `e`, and `post` following: by default (`continueOnFail` false)
the failure propagates to the caller and processing of all `post` items is
aborted — their requests never happen — while the requests already issued
for the items before `i` stand, not rolled back; with the explicit
`continueOnFail` opt-in, item `i` instead yields a record holding the
error's message and processing continues with the remaining items. -/
theorem item_failure_policy (toMsg : ε → String)
    (pre : List (List ρ × α)) (reqs : List ρ) (e : ε)
    (post : List (List ρ × Except ε α)) :
    runItems toMsg (pre.map (fun q => (q.1, Except.ok q.2)) ++ (reqs, Except.error e) :: post)
        false
      = ((pre.map Prod.fst).flatten ++ reqs, Except.error e) ∧
    (runItems toMsg (pre.map (fun q => (q.1, Except.ok q.2)) ++ (reqs, Except.error e) :: post)
        true).1
      = (pre.map Prod.fst).flatten ++ reqs ++ (runItems toMsg post true).1 ∧
    (runItems toMsg (pre.map (fun q => (q.1, Except.ok q.2)) ++ (reqs, Except.error e) :: post)
        true).2
      = (runItems toMsg post true).2.map
          (fun l => pre.map (fun q => OutRec.data q.2) ++ OutRec.errMsg (toMsg e) :: l) := by
  induction pre with
  | nil =>
    refine ⟨?_, ?_, ?_⟩ <;>
      simp [runItems_cons_err_stop, runItems_cons_err_cont]
  | cons q pre ih =>
    refine ⟨?_, ?_, ?_⟩
    · rw [List.map_cons, List.cons_append, runItems_cons_ok, ih.1]
      simp [Except.map, List.append_assoc]
    · rw [List.map_cons, List.cons_append, runItems_cons_ok]
      simp [ih.2.1, List.append_assoc]
    · rw [List.map_cons, List.cons_append, runItems_cons_ok, ih.2.2]
      cases hres : (runItems toMsg post true).2 with
      | error err => simp [Except.map, hres]
      | ok recs => simp [Except.map, hres]

end ShopifyGraphQl
